import Mathlib

/-!
Shallow embedding of the hash-analyzer core (`src/backend/src/detector.ts`
and the utility module bundled with `src/backend/src/index.ts`).

Modelling conventions:
* JS strings are modelled through their code-point sequence `String.data :
  List Char` (the inputs the spec's claims exercise are ASCII, where JS
  UTF-16 `length` and the code-point count coincide).
* JS numbers that the scorer manipulates are exact rationals `ℚ`; the score
  weights are small decimal fractions, written `2/5` for `0.4` and so on.
  `Math.log2`-based entropy is modelled over `ℝ` with `Real.logb 2`.
* `string | null` becomes `Option String`; JS truthiness of such a value
  (`if (x)`) is `strTruthy`, which is false for both `null` and `""`.
* A descriptor's user-supplied regular expression is modelled as an abstract
  whole-input matcher `Option (String → Bool)`; a regex text that fails to
  compile (the source's `try { new RegExp(...) } catch { }`) is modelled as
  `none`, which contributes nothing, exactly like the source's skip.
-/

namespace HashAnalyzer

/-! ## Charset classification (`utils.isHex` / `isBase64` / `isAscii` / `getCharset`) -/

/-- Character class of the JS regex `[0-9a-fA-F]`. -/
def isHexChar (c : Char) : Bool :=
  (48 ≤ c.toNat && c.toNat ≤ 57) || (97 ≤ c.toNat && c.toNat ≤ 102) ||
    (65 ≤ c.toNat && c.toNat ≤ 70)

/-- Character class of the JS regex `[A-Za-z0-9+/]`. -/
def isB64Char (c : Char) : Bool :=
  (65 ≤ c.toNat && c.toNat ≤ 90) || (97 ≤ c.toNat && c.toNat ≤ 122) ||
    (48 ≤ c.toNat && c.toNat ≤ 57) || c == '+' || c == '/'

/-- Model of `isHex`: whole-string match of `/^[0-9a-fA-F]+$/` (nonempty). -/
def isHex (s : String) : Bool :=
  !s.data.isEmpty && s.data.all isHexChar

/-- Model of `isBase64`: whole-string match of `/^[A-Za-z0-9+/]+=*$/`: a nonempty run
of alphabet characters followed only by `=` padding. -/
def isBase64 (s : String) : Bool :=
  !(s.data.takeWhile isB64Char).isEmpty &&
    (s.data.dropWhile isB64Char).all (· == '=')

/-- Model of `isAscii`: whole-string match of `/^[\x00-\x7F]*$/` (the empty string
matches). -/
def isAscii (s : String) : Bool :=
  s.data.all (fun c => c.toNat ≤ 127)

/-- Model of `getCharset`: the classifier tests hex, then base64, then ascii, and
falls back to `"unknown"`, in exactly that order. -/
def getCharset (s : String) : String :=
  if isHex s then "hex"
  else if isBase64 s then "base64"
  else if isAscii s then "ascii"
  else "unknown"

/-! ## Shannon entropy (`utils.shannonEntropy`) -/

/-- Model of `shannonEntropy`: frequency histogram over the string's characters, then
`-Σ pᵢ·log2 pᵢ` with `pᵢ = countᵢ/len`. The source guards the empty string
(returning `0`) and skips histogram entries with `p ≤ 0`; its `try/catch`
body cannot throw, so the catch branch is unreachable and not modelled. -/
noncomputable def shannonEntropy (s : String) : ℝ :=
  if s.data.isEmpty then 0
  else
    let len : ℕ := s.data.length
    List.sum (s.data.dedup.map (fun c =>
      let p : ℝ := (s.data.count c : ℝ) / (len : ℝ)
      if 0 < p then -(p * Real.logb 2 p) else 0))

theorem shannonEntropy_nonneg (s : String) : 0 ≤ shannonEntropy s := by
  unfold shannonEntropy
  split
  · exact le_refl 0
  case isFalse hne =>
    apply List.sum_nonneg
    intro x hx
    simp only [List.mem_map] at hx
    obtain ⟨c, hc, rfl⟩ := hx
    set p : ℝ := ((s.data.count c : ℕ) : ℝ) / ((s.data.length : ℕ) : ℝ) with hp
    by_cases h0 : 0 < p
    · simp only [if_pos h0]
      have hp1 : p ≤ 1 := by
        rw [hp]
        have hlenpos : 0 < (s.data.length : ℝ) := by
          have h1 : s.data ≠ [] := by simpa [List.isEmpty_iff] using hne
          have h2 : 0 < s.data.length := List.length_pos.mpr h1
          exact_mod_cast h2
        rw [div_le_one hlenpos]
        exact_mod_cast List.count_le_length c s.data
      have hlog : Real.logb 2 p ≤ 0 := Real.logb_nonpos one_lt_two h0.le hp1
      rw [le_neg, neg_zero]
      exact mul_nonpos_of_nonneg_of_nonpos h0.le hlog
    · simp only [if_neg h0]; exact le_refl 0

/-! ## Byte-level decoding helpers

`Buffer.from(...).toString('utf-8')` replaces ill-formed byte sequences with
U+FFFD (the WHATWG maximal-subpart rule used by Node). `utf8Replace` models
that decoder; `utf8Strict` is the strict variant used by
`decodeURIComponent`, which throws (here: `none`) on ill-formed input. -/

/-- The replacement character U+FFFD. -/
def fffd : Char := Char.ofNat 0xFFFD

/-- Continuation byte `0x80–0xBF`. -/
def isCont (b : ℕ) : Bool := 0x80 ≤ b && b ≤ 0xBF

/-- Allowed second byte after a given leading byte (W3C/WHATWG ranges, which
exclude overlong forms and surrogates). -/
def utf8Snd (b c : ℕ) : Bool :=
  if b = 0xE0 then 0xA0 ≤ c && c ≤ 0xBF
  else if b = 0xED then 0x80 ≤ c && c ≤ 0x9F
  else if b = 0xF0 then 0x90 ≤ c && c ≤ 0xBF
  else if b = 0xF4 then 0x80 ≤ c && c ≤ 0x8F
  else isCont c

/-- UTF-8 decoding with U+FFFD replacement, written with a fuel parameter
(each step consumes at least one byte, so any fuel at least the list length
gives the same result; fuel keeps the recursion structural). -/
def utf8ReplaceGo : ℕ → List ℕ → List Char
  | 0, _ => []
  | _, [] => []
  | fuel + 1, b :: rest =>
    if b ≤ 0x7F then Char.ofNat b :: utf8ReplaceGo fuel rest
    else if 0xC2 ≤ b && b ≤ 0xDF then
      match rest with
      | c1 :: rest1 =>
        if isCont c1 then
          Char.ofNat ((b - 0xC0) * 64 + (c1 - 0x80)) :: utf8ReplaceGo fuel rest1
        else fffd :: utf8ReplaceGo fuel rest
      | [] => [fffd]
    else if 0xE0 ≤ b && b ≤ 0xEF then
      match rest with
      | c1 :: rest1 =>
        if utf8Snd b c1 then
          match rest1 with
          | c2 :: rest2 =>
            if isCont c2 then
              Char.ofNat ((b - 0xE0) * 4096 + (c1 - 0x80) * 64 + (c2 - 0x80)) ::
                utf8ReplaceGo fuel rest2
            else fffd :: utf8ReplaceGo fuel rest1
          | [] => [fffd]
        else fffd :: utf8ReplaceGo fuel rest
      | [] => [fffd]
    else if 0xF0 ≤ b && b ≤ 0xF4 then
      match rest with
      | c1 :: rest1 =>
        if utf8Snd b c1 then
          match rest1 with
          | c2 :: rest2 =>
            if isCont c2 then
              match rest2 with
              | c3 :: rest3 =>
                if isCont c3 then
                  Char.ofNat ((b - 0xF0) * 262144 + (c1 - 0x80) * 4096 +
                    (c2 - 0x80) * 64 + (c3 - 0x80)) :: utf8ReplaceGo fuel rest3
                else fffd :: utf8ReplaceGo fuel rest2
              | [] => [fffd]
            else fffd :: utf8ReplaceGo fuel rest1
          | [] => [fffd]
        else fffd :: utf8ReplaceGo fuel rest
      | [] => [fffd]
    else fffd :: utf8ReplaceGo fuel rest

/-- UTF-8 decoding with U+FFFD replacement for ill-formed subsequences. -/
def utf8Replace (l : List ℕ) : List Char := utf8ReplaceGo l.length l

/-- Strict UTF-8 decoding: `none` on any ill-formed byte sequence. -/
def utf8Strict : List ℕ → Option (List Char)
  | [] => some []
  | b :: rest =>
    if b ≤ 0x7F then (utf8Strict rest).map (Char.ofNat b :: ·)
    else if 0xC2 ≤ b && b ≤ 0xDF then
      match h1 : rest with
      | c1 :: rest1 =>
        if isCont c1 then
          (utf8Strict rest1).map (Char.ofNat ((b - 0xC0) * 64 + (c1 - 0x80)) :: ·)
        else none
      | [] => none
    else if 0xE0 ≤ b && b ≤ 0xEF then
      match h1 : rest with
      | c1 :: c2 :: rest2 =>
        if utf8Snd b c1 && isCont c2 then
          (utf8Strict rest2).map
            (Char.ofNat ((b - 0xE0) * 4096 + (c1 - 0x80) * 64 + (c2 - 0x80)) :: ·)
        else none
      | _ => none
    else if 0xF0 ≤ b && b ≤ 0xF4 then
      match h1 : rest with
      | c1 :: c2 :: c3 :: rest3 =>
        if utf8Snd b c1 && isCont c2 && isCont c3 then
          (utf8Strict rest3).map
            (Char.ofNat ((b - 0xF0) * 262144 + (c1 - 0x80) * 4096 +
              (c2 - 0x80) * 64 + (c3 - 0x80)) :: ·)
        else none
      | _ => none
    else none
  termination_by l => l.length
  decreasing_by all_goals simp_arith [*]

/-! ## Decoding probes (`utils.safeBase64Decode`, `safeHexDecode`,
`decodeROT13`, `decodeURL`, `decodeBinary`, `decodeOctal`, `decodeUnicode`,
`decodeHTML`) -/

/-- JS truthiness of a `string | null` value: `null` and `""` are falsy. -/
def strTruthy : Option String → Bool
  | none => false
  | some s => !s.data.isEmpty

/-- Base64 alphabet value of a character. -/
def base64Val (c : Char) : Option ℕ :=
  let n := c.toNat
  if 65 ≤ n && n ≤ 90 then some (n - 65)
  else if 97 ≤ n && n ≤ 122 then some (n - 71)
  else if 48 ≤ n && n ≤ 57 then some (n + 4)
  else if c == '+' then some 62
  else if c == '/' then some 63
  else none

/-- The six bits of a base64 value, most significant first. -/
def sextetBits (v : ℕ) : List Bool :=
  [v.testBit 5, v.testBit 4, v.testBit 3, v.testBit 2, v.testBit 1, v.testBit 0]

/-- Regroup a bit stream into bytes; an incomplete trailing chunk is
discarded (Node keeps only whole output bytes). -/
def bitsToBytes : List Bool → List ℕ
  | b7 :: b6 :: b5 :: b4 :: b3 :: b2 :: b1 :: b0 :: rest =>
    ((cond b7 128 0) + (cond b6 64 0) + (cond b5 32 0) + (cond b4 16 0) +
      (cond b3 8 0) + (cond b2 4 0) + (cond b1 2 0) + (cond b0 1 0)) ::
      bitsToBytes rest
  | _ => []

/-- Model of `safeBase64Decode`: the source right-pads with `=` to a multiple of 4 and
then calls `Buffer.from(str, 'base64').toString('utf-8')`, which never
throws, so the function always returns a string (the catch is unreachable).
Node's lenient decoder reads the alphabet run up to the first `=` (the
appended padding therefore does not change the decoded bytes, which is why
the padding step is not reproduced here) and skips characters outside the
alphabet. -/
def safeBase64Decode (s : String) : Option String :=
  let vals := (s.data.takeWhile (· ≠ '=')).filterMap base64Val
  some (String.mk (utf8Replace (bitsToBytes (vals.flatMap sextetBits))))

/-- Hex digit value of a character (`[0-9a-fA-F]`). -/
def hexVal (c : Char) : Option ℕ :=
  let n := c.toNat
  if 48 ≤ n && n ≤ 57 then some (n - 48)
  else if 97 ≤ n && n ≤ 102 then some (n - 87)
  else if 65 ≤ n && n ≤ 70 then some (n - 55)
  else none

/-- Hex pairs to bytes; Node's hex decoder stops at the first invalid pair. -/
def hexPairBytes : List Char → List ℕ
  | c1 :: c2 :: rest =>
    match hexVal c1, hexVal c2 with
    | some a, some b => (16 * a + b) :: hexPairBytes rest
    | _, _ => []
  | _ => []

/-- Model of `safeHexDecode`: `null` for odd length, otherwise
`Buffer.from(str, 'hex').toString('utf-8')` (which never throws). -/
def safeHexDecode (s : String) : Option String :=
  if s.data.length % 2 ≠ 0 then none
  else some (String.mk (utf8Replace (hexPairBytes s.data)))

/-- ROT13 of one character: ASCII letters rotate by 13 within their case,
everything else is unchanged (the source's `/[a-zA-Z]/g` replace touches
exactly the letters and its callback returns other characters unchanged). -/
def rot13Char (c : Char) : Char :=
  let n := c.toNat
  if 65 ≤ n && n ≤ 90 then Char.ofNat ((n - 65 + 13) % 26 + 65)
  else if 97 ≤ n && n ≤ 122 then Char.ofNat ((n - 97 + 13) % 26 + 97)
  else c

/-- Model of `decodeROT13`: a pure character map; the `try/catch` can never fire, so
the result is always `some`. -/
def decodeROT13 (s : String) : Option String :=
  some (String.mk (s.data.map rot13Char))

/-- Tokenize for `decodeURIComponent`: literal characters pass through, each
`%XX` escape yields a byte, and a malformed escape aborts (`URIError`). -/
def percentTokens : List Char → Option (List (Char ⊕ ℕ))
  | [] => some []
  | c :: rest =>
    if c = '%' then
      match rest with
      | h1 :: h2 :: rest2 =>
        match hexVal h1, hexVal h2 with
        | some a, some b => (percentTokens rest2).map (Sum.inr (16 * a + b) :: ·)
        | _, _ => none
      | _ => none
    else (percentTokens rest).map (Sum.inl c :: ·)
  termination_by l => l.length
  decreasing_by all_goals simp_arith [*]

/-- Decode the token stream: maximal runs of escape bytes must form valid
UTF-8 (strict, as `decodeURIComponent` throws on ill-formed sequences). -/
def percentAssemble (pending : List ℕ) : List (Char ⊕ ℕ) → Option (List Char)
  | [] => utf8Strict pending.reverse
  | Sum.inr b :: ts => percentAssemble (b :: pending) ts
  | Sum.inl c :: ts => do
    let flushed ← utf8Strict pending.reverse
    let rest ← percentAssemble [] ts
    return flushed ++ (c :: rest)

/-- Model of `decodeURL`: `decodeURIComponent`, `null` on a malformed escape or
ill-formed percent-encoded UTF-8. -/
def decodeURL (s : String) : Option String :=
  match percentTokens s.data >>= percentAssemble [] with
  | some cs => some (String.mk cs)
  | none => none

/-- Split a list into chunks of exactly `n`; an incomplete tail is dropped
(the source only processes full `substr` chunks). -/
def fullChunks (n : ℕ) (l : List α) : List (List α) :=
  if h : 0 < n ∧ n ≤ l.length then
    l.take n :: fullChunks n (l.drop n)
  else []
  termination_by l.length
  decreasing_by simp_arith; omega

/-- Model of `decodeBinary`: requires `/^[01]+$/`; 8-bit chunks, keeping only
printable byte values 32–126; `null` if no printable output. -/
def decodeBinary (s : String) : Option String :=
  if s.data.isEmpty || !s.data.all (fun c => c == '0' || c == '1') then none
  else
    let cs := (((fullChunks 8 s.data).map
      (fun ch => ch.foldl (fun acc c => 2 * acc + (if c = '1' then 1 else 0)) 0)).filter
        (fun v => 32 ≤ v && v ≤ 126)).map Char.ofNat
    if cs.isEmpty then none else some (String.mk cs)

/-- Model of `decodeOctal`: requires `/^[0-7]+$/`; 3-digit base-8 chunks, keeping only
printable byte values 32–126; `null` if no printable output. -/
def decodeOctal (s : String) : Option String :=
  if s.data.isEmpty || !s.data.all (fun c => 48 ≤ c.toNat && c.toNat ≤ 55) then none
  else
    let cs := (((fullChunks 3 s.data).map
      (fun ch => ch.foldl (fun acc c => 8 * acc + (c.toNat - 48)) 0)).filter
        (fun v => 32 ≤ v && v ≤ 126)).map Char.ofNat
    if cs.isEmpty then none else some (String.mk cs)

/-- Does the string contain a `\uXXXX` escape (`/\\u[0-9a-fA-F]{4}/`)? -/
def hasUEscape : List Char → Bool
  | '\\' :: 'u' :: h1 :: h2 :: h3 :: h4 :: rest =>
    ((hexVal h1).isSome && (hexVal h2).isSome && (hexVal h3).isSome &&
      (hexVal h4).isSome) ||
      hasUEscape ('u' :: h1 :: h2 :: h3 :: h4 :: rest)
  | _ :: rest => hasUEscape rest
  | [] => false
  termination_by l => l.length
  decreasing_by all_goals simp_arith

/-- Replace every `\uXXXX` escape by `String.fromCharCode` of its value; the
global regex scan advances one character when no escape starts at the
current position. (For surrogate code units JS produces a lone surrogate;
`Char.ofNat` maps those to `'\0'` — no claim depends on that corner.) -/
def replaceUEscapes : List Char → List Char
  | '\\' :: 'u' :: h1 :: h2 :: h3 :: h4 :: rest =>
    match hexVal h1, hexVal h2, hexVal h3, hexVal h4 with
    | some a, some b, some c, some d =>
      Char.ofNat (4096 * a + 256 * b + 16 * c + d) :: replaceUEscapes rest
    | _, _, _, _ => '\\' :: replaceUEscapes ('u' :: h1 :: h2 :: h3 :: h4 :: rest)
  | c :: rest => c :: replaceUEscapes rest
  | [] => []
  termination_by l => l.length
  decreasing_by all_goals simp_arith

/-- Model of `decodeUnicode`: `null` when no escape is present, otherwise the
replaced string. -/
def decodeUnicode (s : String) : Option String :=
  if !hasUEscape s.data then none
  else some (String.mk (replaceUEscapes s.data))

/-- Replace every occurrence of `pat` (nonempty) by `rep`, left to right,
non-overlapping — the behavior of `str.replace(new RegExp(literal, 'g'))`. -/
def replaceAllL (pat rep : List Char) : List Char → List Char
  | [] => []
  | c :: rest =>
    if h : pat ≠ [] ∧ pat.isPrefixOf (c :: rest) then
      rep ++ replaceAllL pat rep ((c :: rest).drop pat.length)
    else c :: replaceAllL pat rep rest
  termination_by l => l.length
  decreasing_by
    · simp_arith
      have hl : 0 < pat.length := List.length_pos.mpr h.1
      omega
    · simp_arith

/-- The fixed named-entity table, in the source's insertion order. -/
def htmlEntities : List (List Char × List Char) :=
  [("&amp;".data, "&".data), ("&lt;".data, "<".data), ("&gt;".data, ">".data),
   ("&quot;".data, "\"".data), ("&#39;".data, "'".data),
   ("&nbsp;".data, " ".data), ("&copy;".data, "©".data),
   ("&reg;".data, "®".data), ("&trade;".data, "™".data)]

/-- Numeric entities `&#N;`: replaced by the character when `32 ≤ N ≤ 126`,
left untouched otherwise; scanning resumes after the match. -/
def numericEntities : List Char → List Char
  | '&' :: '#' :: rest =>
    if hds : (rest.takeWhile Char.isDigit).isEmpty then
      '&' :: numericEntities ('#' :: rest)
    else
      match hr : rest.dropWhile Char.isDigit with
      | ';' :: rest3 =>
        let ds := rest.takeWhile Char.isDigit
        let n := ds.foldl (fun acc c => 10 * acc + (c.toNat - 48)) 0
        (if 32 ≤ n && n ≤ 126 then [Char.ofNat n]
         else '&' :: '#' :: (ds ++ [';'])) ++ numericEntities rest3
      | _ => '&' :: numericEntities ('#' :: rest)
  | c :: rest => c :: numericEntities rest
  | [] => []
  termination_by l => l.length
  decreasing_by
    all_goals simp_arith
    have h1 : (rest.dropWhile Char.isDigit).length ≤ rest.length :=
      (List.dropWhile_sublist _).length_le
    rw [hr] at h1
    simp at h1
    omega

/-- Model of `decodeHTML`: run the named-entity replacements in table order, then the
numeric entities, and return `null` when nothing changed. -/
def decodeHTML (s : String) : Option String :=
  let r1 := htmlEntities.foldl (fun acc er => replaceAllL er.1 er.2 acc) s.data
  let r2 := numericEntities r1
  if r2 == s.data then none else some (String.mk r2)

/-! ## Data model (`detector.ts` interfaces) -/

/-- Descriptor type `HashPattern`: one catalog entry. `regex` is an abstract compiled
matcher (see the header); `example?`/`srcNote`/`notes` are the free-text
fields `example`/`source`/`notes`, never read by the scorer. -/
structure HashPattern where
  name : String
  length : Option ℕ := none
  charset : Option String := none
  prefixes : Option (List String) := none
  suffixes : Option (List String) := none
  regex : Option (String → Bool) := none
  examp : Option String := none
  srcNote : Option String := none
  notes : Option String := none

/-- The three confidence tiers (the `color` field). -/
inductive Color where
  | green
  | yellow
  | red
deriving DecidableEq, Repr

/-- Detection result record. -/
structure DetectionResult where
  id : String
  name : String
  score : ℚ
  color : Color
  reasons : List String
deriving DecidableEq, Repr

/-- Character statistics (`utils.getCharStats`); `\d`, `[a-zA-Z]` and
`[^a-zA-Z0-9]` are the source's counting regexes. -/
structure CharStats where
  total : ℕ
  unique : ℕ
  digits : ℕ
  letters : ℕ
  special : ℕ
  entropy : ℝ

/-- The decoding mapping of the analysis record: a missing key is `none`. -/
structure DecodingMap where
  base64 : Option String := none
  hex : Option String := none
  rot13 : Option String := none
  url : Option String := none
  binary : Option String := none
  octal : Option String := none
  unicode : Option String := none
  html : Option String := none
deriving DecidableEq, Repr

/-- Analysis record. Its `freq` field is, as in the source, the stats object minus
its `entropy` key (`Object.fromEntries(Object.entries(stats).filter(...))`),
an ordered key/value list. -/
structure AnalysisResult where
  input : String
  results : List DetectionResult
  stats : CharStats
  decoding : DecodingMap
  freq : List (String × ℕ)

/-- ASCII digit, the JS regex `\d`. -/
def isDigitCh (c : Char) : Bool := 48 ≤ c.toNat && c.toNat ≤ 57

/-- ASCII letter, the JS regex `[a-zA-Z]`. -/
def isLetterCh (c : Char) : Bool :=
  (65 ≤ c.toNat && c.toNat ≤ 90) || (97 ≤ c.toNat && c.toNat ≤ 122)

/-- Model of `getCharStats` (its `try/catch` body cannot throw on a string, so the
catch branch is unreachable). `new Set(str).size` is the number of distinct
characters. -/
noncomputable def getCharStats (s : String) : CharStats :=
  { total := s.data.length
    unique := s.data.dedup.length
    digits := (s.data.filter isDigitCh).length
    letters := (s.data.filter isLetterCh).length
    special := (s.data.filter (fun c => !(isDigitCh c || isLetterCh c))).length
    entropy := shannonEntropy s }

/-! ## Scorer (`detectCandidates` loop body, steps 1–8)

Each step yields its score contribution and its evidence strings; the loop
accumulates them in this fixed order. The source also tracks a
`hasRegexMatch` flag that is never read afterwards; it is not modelled. -/

/-- Step 1 — regex match (+0.40). An invalid regex is `none` (see header). -/
def regexStep (input : String) (p : HashPattern) : ℚ × List String :=
  match p.regex with
  | some test => if test input then (2/5, ["Regex pattern match"]) else (0, [])
  | none => (0, [])

/-- The first declared literal prefix the input starts with, if any (the
source's step-2 loop with `break`; `hasPrefixMatch` is exactly the
`isSome` of this). -/
def prefixHit (input : String) (p : HashPattern) : Option String :=
  match p.prefixes with
  | some ps => ps.find? (fun pre => pre.data.isPrefixOf input.data)
  | none => none

/-- Step 2 — prefix match (+0.25). -/
def prefixStep (input : String) (p : HashPattern) : ℚ × List String :=
  match prefixHit input p with
  | some pre => (1/4, ["Prefix match (" ++ pre ++ ")"])
  | none => (0, [])

/-- Step 3 — fuzzy length match. `if (pattern.length)` is JS-truthy, so a
declared length of `0` is skipped. Diff 0 → +0.40, ≤4 → +0.30, ≤8 → +0.10. -/
def lengthStep (input : String) (p : HashPattern) : ℚ × List String :=
  match p.length with
  | some L =>
    if L = 0 then (0, [])
    else
      let d := max L input.data.length - min L input.data.length
      if d = 0 then (2/5, ["Exact length match (" ++ toString L ++ ")"])
      else if d ≤ 4 then
        (3/10, ["Fuzzy length match (" ++ toString L ++ " vs " ++
          toString input.data.length ++ ", diff: " ++ toString d ++ ")"])
      else if d ≤ 8 then
        (1/10, ["Near length match (" ++ toString L ++ " vs " ++
          toString input.data.length ++ ", diff: " ++ toString d ++ ")"])
      else (0, [])
  | none => (0, [])

/-- Step 4 — flexible charset matching. Direct classification match +0.20;
charset of a truthy base64/hex decode equal to the tag +0.15 each; if none
of those fired and the tag is `hex` while the classification is `hex` or
`alphanum`, a +0.10 variation bonus. `if (pattern.charset)` is JS-truthy,
so an empty tag is skipped. -/
def charsetStep (input : String) (p : HashPattern) : ℚ × List String :=
  match p.charset with
  | some tag =>
    if tag.data.isEmpty then (0, [])
    else
      let charset := getCharset input
      let direct := tag == charset
      let b64 := safeBase64Decode input
      let hx := safeHexDecode input
      let b64m := strTruthy b64 && (tag == getCharset (b64.getD ""))
      let hxm := strTruthy hx && (tag == getCharset (hx.getD ""))
      let charsetMatch := direct || b64m || hxm
      let variation := !charsetMatch && tag == "hex" &&
        (charset == "hex" || charset == "alphanum")
      ((if direct then (1/5 : ℚ) else 0) + (if b64m then 3/20 else 0) +
          (if hxm then 3/20 else 0) + (if variation then 1/10 else 0),
        (if direct then ["Charset match (" ++ charset ++ ")"] else []) ++
          (if b64m then ["Decoded charset match (" ++ tag ++ ")"] else []) ++
          (if hxm then ["Decoded charset match (" ++ tag ++ ")"] else []) ++
          (if variation then
            ["Charset variation match (" ++ charset ++ " -> " ++ tag ++ ")"]
           else []))
  | none => (0, [])

/-- Step 4 with the dead `alphanum` variation branch removed; used to state
that the branch never fires (design-note comparison definition). -/
def charsetStepNoVariation (input : String) (p : HashPattern) : ℚ × List String :=
  match p.charset with
  | some tag =>
    if tag.data.isEmpty then (0, [])
    else
      let charset := getCharset input
      let direct := tag == charset
      let b64 := safeBase64Decode input
      let hx := safeHexDecode input
      let b64m := strTruthy b64 && (tag == getCharset (b64.getD ""))
      let hxm := strTruthy hx && (tag == getCharset (hx.getD ""))
      ((if direct then (1/5 : ℚ) else 0) + (if b64m then 3/20 else 0) +
          (if hxm then 3/20 else 0),
        (if direct then ["Charset match (" ++ charset ++ ")"] else []) ++
          (if b64m then ["Decoded charset match (" ++ tag ++ ")"] else []) ++
          (if hxm then ["Decoded charset match (" ++ tag ++ ")"] else []))
  | none => (0, [])

/-- Step 5 — suffix match (+0.10), first declared suffix the input ends
with. -/
def suffixStep (input : String) (p : HashPattern) : ℚ × List String :=
  match p.suffixes with
  | some ss =>
    match ss.find? (fun suf => suf.data.isSuffixOf input.data) with
    | some suf => (1/10, ["Suffix match (" ++ suf ++ ")"])
    | none => (0, [])
  | none => (0, [])

/-- The length-adaptive entropy threshold
`Math.max(2.5, Math.min(4.0, 3.0 + inputLength / 50))`. -/
def entropyThreshold (len : ℕ) : ℚ := max (5/2) (min 4 (3 + (len : ℚ) / 50))

/-- Step 6 — dynamic entropy bonus (+0.10 when the input's entropy exceeds
the threshold). The evidence string interpolates `toFixed(2)` renderings of
two real numbers; that display-only formatting is elided here. -/
noncomputable def entropyStep (input : String) : ℚ × List String :=
  if shannonEntropy input > ((entropyThreshold input.data.length : ℚ) : ℝ) then
    (1/10, ["High entropy"])
  else (0, [])

/-- Step 7 — decodability bonus: +0.10 if base64 or hex decodes to a truthy
string, +0.05 more for each decode whose charset equals the (truthy)
declared tag. -/
def decodeStep (input : String) (p : HashPattern) : ℚ × List String :=
  let b64 := safeBase64Decode input
  let hx := safeHexDecode input
  if strTruthy b64 || strTruthy hx then
    let tagOk := fun (o : Option String) =>
      strTruthy o &&
        (match p.charset with
         | some tag => !tag.data.isEmpty && tag == getCharset (o.getD "")
         | none => false)
    ((1/10 : ℚ) + (if tagOk b64 then 1/20 else 0) + (if tagOk hx then 1/20 else 0),
      ["Decodable content"] ++
        (if tagOk b64 then ["Decoded content charset match"] else []) ++
        (if tagOk hx then ["Decoded content charset match"] else []))
  else (0, [])

/-- Step 8 — signature boost: a further +0.30 when step 2's prefix check
matched (the guard re-checks that the prefix list is nonempty, which a hit
implies); the evidence names `pattern.prefixes[0]`. -/
def signatureStep (input : String) (p : HashPattern) : ℚ × List String :=
  match p.prefixes, prefixHit input p with
  | some ps, some _ =>
    (3/10, ["Signature match (" ++ ps.headD "" ++ ")"])
  | _, _ => (0, [])

/-- The whole loop body: contributions are summed and evidence is
concatenated in the fixed step order. -/
noncomputable def scorePattern (input : String) (p : HashPattern) : ℚ × List String :=
  ((regexStep input p).1 + (prefixStep input p).1 + (lengthStep input p).1 +
      (charsetStep input p).1 + (suffixStep input p).1 +
      (entropyStep input).1 + (decodeStep input p).1 +
      (signatureStep input p).1,
    (regexStep input p).2 ++ (prefixStep input p).2 ++ (lengthStep input p).2 ++
      (charsetStep input p).2 ++ (suffixStep input p).2 ++
      (entropyStep input).2 ++ (decodeStep input p).2 ++
      (signatureStep input p).2)

/-- Tier from the score: `> 0.8 → green`, `≥ 0.55 → yellow`, else `red`
(the source computes this on the pre-clamp score). -/
def colorOf (score : ℚ) : Color :=
  if 4/5 < score then Color.green
  else if 11/20 ≤ score then Color.yellow
  else Color.red

/-- The candidates the loop pushes, in catalog iteration order: descriptors
whose pre-clamp score reaches the 0.25 inclusion threshold, with the score
clamped by `Math.min(score, 1.0)`. -/
noncomputable def candidatesOf (cat : List (String × HashPattern))
    (input : String) : List DetectionResult :=
  cat.filterMap (fun e =>
    let sc := scorePattern input e.2
    if (1/4 : ℚ) ≤ sc.1 then
      some ⟨e.1, e.2.name, min sc.1 1, colorOf sc.1, sc.2⟩
    else none)

/-- Stable descending insertion by score: an element moves before the first
strictly smaller score, so earlier (catalog-order) elements keep precedence
on ties — the behavior of JS's stable `sort((a, b) => b.score - a.score)`. -/
def insertDesc (r : DetectionResult) : List DetectionResult → List DetectionResult
  | [] => [r]
  | x :: xs => if x.score ≤ r.score then r :: x :: xs else x :: insertDesc r xs

/-- Stable sort by descending score. -/
def sortByScoreDesc : List DetectionResult → List DetectionResult
  | [] => []
  | x :: xs => insertDesc x (sortByScoreDesc xs)

/-- Model of `detectCandidates`: guard (empty input → `[]`; the non-string case and
the unreachable outer catch are outside the string model), score every
catalog descriptor, sort stably by descending score and keep the top 3. -/
noncomputable def detectCandidates (cat : List (String × HashPattern))
    (input : String) : List DetectionResult :=
  if input.data.isEmpty then []
  else (sortByScoreDesc (candidatesOf cat input)).take 3

/-! ## ResultAggregator (`analyzeInput`) -/

/-- The decoding mapping assembled by `analyzeInput`: each probe's result is
stored under its key only when truthy (never `null`/empty). The per-probe
`try/catch` wrappers are unreachable (every probe is total). -/
def mkDecoding (input : String) : DecodingMap :=
  { base64 := (safeBase64Decode input).filter (fun v => !v.data.isEmpty)
    hex := (safeHexDecode input).filter (fun v => !v.data.isEmpty)
    rot13 := (decodeROT13 input).filter (fun v => !v.data.isEmpty)
    url := (decodeURL input).filter (fun v => !v.data.isEmpty)
    binary := (decodeBinary input).filter (fun v => !v.data.isEmpty)
    octal := (decodeOctal input).filter (fun v => !v.data.isEmpty)
    unicode := (decodeUnicode input).filter (fun v => !v.data.isEmpty)
    html := (decodeHTML input).filter (fun v => !v.data.isEmpty) }

/-- The `freq` object: the stats entries minus the `entropy` key. -/
def mkFreq (s : String) : List (String × ℕ) :=
  [("total", s.data.length), ("unique", s.data.dedup.length),
   ("digits", (s.data.filter isDigitCh).length),
   ("letters", (s.data.filter isLetterCh).length),
   ("special", (s.data.filter (fun c => !(isDigitCh c || isLetterCh c))).length)]

/-- The sentinel pushed when no candidate cleared the threshold. -/
def unknownResult : DetectionResult :=
  ⟨"unknown", "Unknown", 0, Color.red, ["no patterns matched"]⟩

/-- The body of `analyzeInput`'s `try` block: validation throws (`!input`
— for a string, emptiness — then the 10,000-character cap) surface here as
`Except.error`; everything after validation is total. -/
noncomputable def analyzeInputBody (cat : List (String × HashPattern))
    (input : String) : Except String AnalysisResult :=
  if input.data.isEmpty then
    Except.error "Invalid input: must be a non-empty string"
  else if input.data.length > 10000 then
    Except.error "Input too long: maximum 10,000 characters allowed"
  else
    let results := detectCandidates cat input
    Except.ok
      { input := input
        results := if results.isEmpty then [unknownResult] else results
        stats := getCharStats input
        decoding := mkDecoding input
        freq := mkFreq input }

/-- The degraded record built in `analyzeInput`'s catch branch: a single
sentinel result with id `"error"`, inline-recomputed stats with entropy 0,
and empty decoding/freq. -/
noncomputable def fallbackRecord (input : String) (msg : String) : AnalysisResult :=
  { input := input
    results := [⟨"error", "Analysis Error", 0, Color.red,
      ["analysis failed: " ++ msg]⟩]
    stats :=
      { total := input.data.length
        unique := input.data.dedup.length
        digits := (input.data.filter isDigitCh).length
        letters := (input.data.filter isLetterCh).length
        special := (input.data.filter (fun c => !(isDigitCh c || isLetterCh c))).length
        entropy := 0 }
    decoding := {}
    freq := [] }

/-- Model of `analyzeInput`: the `try` body, with any thrown error — including the
validation errors — caught and converted to the fallback record. Total. -/
noncomputable def analyzeInput (cat : List (String × HashPattern))
    (input : String) : AnalysisResult :=
  match analyzeInputBody cat input with
  | Except.ok r => r
  | Except.error msg => fallbackRecord input msg

/-! ## Concrete instances used by the end-to-end claims -/

/-- The 32-character lowercase hex MD5 example input. -/
def md5In : String := "5d41402abc4b2a76b9719d911017c592"

/-- An MD5 descriptor with exact length 32 and charset tag `hex` only. -/
def md5Pat : HashPattern := { name := "MD5", length := some 32, charset := some "hex" }

/-- A one-descriptor catalog holding the MD5 descriptor. -/
def md5Cat : List (String × HashPattern) := [("md5", md5Pat)]

/-- A descriptor declaring only an exact length of 2. -/
def len2Pat : HashPattern := { name := "Len2", length := some 2 }

/-- A one-descriptor catalog holding the length-2 descriptor. -/
def len2Cat : List (String × HashPattern) := [("len2", len2Pat)]

/-! ## Sorting lemmas -/

theorem mem_insertDesc {r y : DetectionResult} {l : List DetectionResult} :
    y ∈ insertDesc r l ↔ y = r ∨ y ∈ l := by
  induction l with
  | nil => simp [insertDesc]
  | cons x xs ih =>
    simp only [insertDesc]
    split
    · simp
    · simp [ih]; tauto

theorem length_insertDesc (r : DetectionResult) (l : List DetectionResult) :
    (insertDesc r l).length = l.length + 1 := by
  induction l with
  | nil => simp [insertDesc]
  | cons x xs ih =>
    simp only [insertDesc]
    split
    · simp
    · simp [ih]

theorem length_sortByScoreDesc (l : List DetectionResult) :
    (sortByScoreDesc l).length = l.length := by
  induction l with
  | nil => rfl
  | cons x xs ih => simp [sortByScoreDesc, length_insertDesc, ih]

theorem mem_sortByScoreDesc {y : DetectionResult} {l : List DetectionResult} :
    y ∈ sortByScoreDesc l ↔ y ∈ l := by
  induction l with
  | nil => simp [sortByScoreDesc]
  | cons x xs ih => simp [sortByScoreDesc, mem_insertDesc, ih]

theorem pairwise_insertDesc {r : DetectionResult} {l : List DetectionResult}
    (h : l.Pairwise (fun a b => b.score ≤ a.score)) :
    (insertDesc r l).Pairwise (fun a b => b.score ≤ a.score) := by
  induction l with
  | nil => simp [insertDesc]
  | cons x xs ih =>
    rw [List.pairwise_cons] at h
    simp only [insertDesc]
    split
    case isTrue hle =>
      rw [List.pairwise_cons]
      constructor
      · intro y hy
        rcases List.mem_cons.mp hy with rfl | hy2
        · exact hle
        · exact le_trans (h.1 y hy2) hle
      · exact List.pairwise_cons.mpr h
    case isFalse hgt =>
      rw [List.pairwise_cons]
      constructor
      · intro y hy
        rcases mem_insertDesc.mp hy with rfl | hy2
        · exact (not_le.mp hgt).le
        · exact h.1 y hy2
      · exact ih h.2

theorem pairwise_sortByScoreDesc (l : List DetectionResult) :
    (sortByScoreDesc l).Pairwise (fun a b => b.score ≤ a.score) := by
  induction l with
  | nil => simp [sortByScoreDesc]
  | cons x xs ih => exact pairwise_insertDesc ih

theorem filter_insertDesc_eq {r : DetectionResult} {v : ℚ}
    (hv : r.score = v) (l : List DetectionResult) :
    (insertDesc r l).filter (fun x => x.score == v) =
      r :: l.filter (fun x => x.score == v) := by
  induction l with
  | nil => simp [insertDesc, List.filter, hv]
  | cons x xs ih =>
    simp only [insertDesc]
    split
    case isTrue hle => simp [List.filter_cons, hv]
    case isFalse hgt =>
      have hx : ¬x.score = v := by
        intro hcontra
        exact hgt (by rw [hcontra, ← hv])
      simp [List.filter_cons, hx, ih]

theorem filter_insertDesc_ne {r : DetectionResult} {v : ℚ}
    (hv : r.score ≠ v) (l : List DetectionResult) :
    (insertDesc r l).filter (fun x => x.score == v) =
      l.filter (fun x => x.score == v) := by
  induction l with
  | nil => simp [insertDesc, List.filter_cons, hv]
  | cons x xs ih =>
    simp only [insertDesc]
    split
    case isTrue hle => simp [List.filter_cons, hv]
    case isFalse hgt => simp [List.filter_cons, ih]

/-- Stability of the sort: each equal-score class keeps its original
(catalog) order. -/
theorem filter_sortByScoreDesc (v : ℚ) (l : List DetectionResult) :
    (sortByScoreDesc l).filter (fun x => x.score == v) =
      l.filter (fun x => x.score == v) := by
  induction l with
  | nil => rfl
  | cons x xs ih =>
    simp only [sortByScoreDesc]
    by_cases hx : x.score = v
    · rw [filter_insertDesc_eq hx, ih, List.filter_cons, if_pos (by simp [hx])]
    · rw [filter_insertDesc_ne hx, ih, List.filter_cons, if_neg (by simp [hx])]

theorem filter_take_leads (p : DetectionResult → Bool) (n : ℕ)
    (l : List DetectionResult) :
    ∃ t, (l.take n).filter p ++ t = l.filter p := by
  refine ⟨(l.drop n).filter p, ?_⟩
  rw [← List.filter_append, List.take_append_drop]

/-! ## Score bounds -/

theorem regexStep_nonneg (input : String) (p : HashPattern) :
    0 ≤ (regexStep input p).1 := by
  unfold regexStep; rcases p.regex with _ | t <;> simp <;> split <;> norm_num

theorem prefixStep_nonneg (input : String) (p : HashPattern) :
    0 ≤ (prefixStep input p).1 := by
  unfold prefixStep; rcases prefixHit input p with _ | pre <;> norm_num

theorem lengthStep_nonneg (input : String) (p : HashPattern) :
    0 ≤ (lengthStep input p).1 := by
  unfold lengthStep
  rcases p.length with _ | L
  · norm_num
  · simp only
    split
    · norm_num
    · split
      · norm_num
      · split
        · norm_num
        · split <;> norm_num

theorem ite_nonneg_q {c : Prop} [Decidable c] {a b : ℚ} (ha : 0 ≤ a)
    (hb : 0 ≤ b) : 0 ≤ if c then a else b := by
  split <;> assumption

theorem charsetStep_nonneg (input : String) (p : HashPattern) :
    0 ≤ (charsetStep input p).1 := by
  unfold charsetStep
  rcases p.charset with _ | tag
  · norm_num
  · simp only
    split
    · norm_num
    · refine add_nonneg (add_nonneg (add_nonneg ?_ ?_) ?_) ?_ <;>
        exact ite_nonneg_q (by norm_num) le_rfl

theorem suffixStep_nonneg (input : String) (p : HashPattern) :
    0 ≤ (suffixStep input p).1 := by
  unfold suffixStep
  rcases p.suffixes with _ | ss
  · norm_num
  · simp only
    rcases h : ss.find? (fun suf => suf.data.isSuffixOf input.data) with _ | suf <;>
      simp [h]

theorem entropyStep_nonneg (input : String) : 0 ≤ (entropyStep input).1 := by
  unfold entropyStep; split <;> norm_num

theorem decodeStep_nonneg (input : String) (p : HashPattern) :
    0 ≤ (decodeStep input p).1 := by
  unfold decodeStep
  simp only
  split
  · simp only
    refine add_nonneg (add_nonneg (by norm_num) ?_) ?_ <;>
      exact ite_nonneg_q (by norm_num) le_rfl
  · norm_num

theorem signatureStep_nonneg (input : String) (p : HashPattern) :
    0 ≤ (signatureStep input p).1 := by
  unfold signatureStep
  rcases p.prefixes with _ | ps <;> rcases h : prefixHit input p with _ | pre <;> simp [h]
  norm_num

theorem scorePattern_nonneg (input : String) (p : HashPattern) :
    0 ≤ (scorePattern input p).1 := by
  unfold scorePattern
  have h1 := regexStep_nonneg input p
  have h2 := prefixStep_nonneg input p
  have h3 := lengthStep_nonneg input p
  have h4 := charsetStep_nonneg input p
  have h5 := suffixStep_nonneg input p
  have h6 := entropyStep_nonneg input
  have h7 := decodeStep_nonneg input p
  have h8 := signatureStep_nonneg input p
  simp only
  linarith

/-! ## Tier mapping -/

theorem colorOf_green_iff (s : ℚ) : colorOf s = Color.green ↔ 4/5 < s := by
  unfold colorOf
  split
  case isTrue h => exact ⟨fun _ => h, fun _ => rfl⟩
  case isFalse h =>
    split <;> exact ⟨fun hc => Color.noConfusion hc, fun hlt => absurd hlt h⟩

theorem colorOf_yellow_iff (s : ℚ) :
    colorOf s = Color.yellow ↔ 11/20 ≤ s ∧ s ≤ 4/5 := by
  unfold colorOf
  split
  case isTrue h =>
    exact ⟨fun hc => Color.noConfusion hc, fun hand => absurd h (not_lt.mpr hand.2)⟩
  case isFalse h =>
    split
    case isTrue h2 => exact ⟨fun _ => ⟨h2, not_lt.mp h⟩, fun _ => rfl⟩
    case isFalse h2 =>
      exact ⟨fun hc => Color.noConfusion hc, fun hand => absurd hand.1 h2⟩

theorem colorOf_red_iff (s : ℚ) : colorOf s = Color.red ↔ s < 11/20 := by
  unfold colorOf
  split
  case isTrue h =>
    exact ⟨fun hc => Color.noConfusion hc, fun hlt => by linarith⟩
  case isFalse h =>
    split
    case isTrue h2 =>
      exact ⟨fun hc => Color.noConfusion hc, fun hlt => absurd h2 (not_le.mpr hlt)⟩
    case isFalse h2 => exact ⟨fun _ => not_le.mp h2, fun _ => rfl⟩

/-! ## Concrete logarithm facts and entropy evaluations -/

theorem logb_32 : Real.logb 2 32 = 5 := by
  rw [show (32:ℝ) = 2^(5:ℕ) by norm_num, Real.logb_pow, Real.logb_self_eq_one one_lt_two]
  norm_num

theorem logb_3_gt : (3:ℝ)/2 < Real.logb 2 3 := by
  have h9 : (3:ℝ) < Real.logb 2 9 := by
    rw [Real.lt_logb_iff_rpow_lt one_lt_two (by norm_num : (0:ℝ) < 9)]
    rw [show (3:ℝ) = ((3:ℕ):ℝ) by norm_num, Real.rpow_natCast]
    norm_num
  rw [show (9:ℝ) = 3^(2:ℕ) by norm_num, Real.logb_pow] at h9
  push_cast at h9
  linarith

theorem logb_5_gt : (2:ℝ) < Real.logb 2 5 := by
  rw [Real.lt_logb_iff_rpow_lt one_lt_two (by norm_num : (0:ℝ) < 5)]
  rw [show (2:ℝ) = ((2:ℕ):ℝ) by norm_num, Real.rpow_natCast]
  norm_num

/-- Entropy of the MD5 example input is below its threshold 3.64 (it equals
`5 - (18 + 12*log2 3 + 5*log2 5)/32 ≈ 3.48`). -/
theorem entropy_md5_lt : shannonEntropy md5In < 91/25 := by
  have hd : md5In.data.dedup = ['4', 'a', '6', 'b', 'd', '0', '1', '7', 'c', '5', '9', '2'] := by
    decide
  have hl : md5In.data.length = 32 := by decide
  have he : md5In.data.isEmpty = false := by decide
  have hc4 : md5In.data.count '4' = 3 := by decide
  have hca : md5In.data.count 'a' = 2 := by decide
  have hc6 : md5In.data.count '6' = 1 := by decide
  have hcb : md5In.data.count 'b' = 3 := by decide
  have hcd : md5In.data.count 'd' = 2 := by decide
  have hc0 : md5In.data.count '0' = 2 := by decide
  have hc1 : md5In.data.count '1' = 5 := by decide
  have hc7 : md5In.data.count '7' = 3 := by decide
  have hcc : md5In.data.count 'c' = 2 := by decide
  have hc5 : md5In.data.count '5' = 2 := by decide
  have hc9 : md5In.data.count '9' = 4 := by decide
  have hc2 : md5In.data.count '2' = 3 := by decide
  have l1 : Real.logb 2 ((1:ℝ)/32) = -5 := by
    rw [Real.logb_div (by norm_num) (by norm_num), logb_32]; norm_num
  have l2 : Real.logb 2 ((2:ℝ)/32) = -4 := by
    rw [Real.logb_div (by norm_num) (by norm_num), logb_32,
      Real.logb_self_eq_one one_lt_two]
    norm_num
  have l4 : Real.logb 2 ((4:ℝ)/32) = -3 := by
    rw [Real.logb_div (by norm_num) (by norm_num), logb_32,
      show (4:ℝ) = 2^(2:ℕ) by norm_num, Real.logb_pow,
      Real.logb_self_eq_one one_lt_two]
    norm_num
  have l3 : Real.logb 2 ((3:ℝ)/32) = Real.logb 2 3 - 5 := by
    rw [Real.logb_div (by norm_num) (by norm_num), logb_32]
  have l5 : Real.logb 2 ((5:ℝ)/32) = Real.logb 2 5 - 5 := by
    rw [Real.logb_div (by norm_num) (by norm_num), logb_32]
  have ha := logb_3_gt
  have hb := logb_5_gt
  rw [shannonEntropy, he]
  simp only [Bool.false_eq_true, if_false, hd, hl, hc4, hca, hc6, hcb, hcd, hc0,
    hc1, hc7, hcc, hc5, hc9, hc2, List.map_cons, List.map_nil, List.sum_cons,
    List.sum_nil]
  push_cast
  norm_num [l1, l2, l3, l4, l5]
  linarith

/-- Entropy bonus does not fire on the MD5 input (3.48 < 3.64). -/
theorem entropyStep_md5 : entropyStep md5In = (0, []) := by
  rw [entropyStep, if_neg]
  push_neg
  have hl : md5In.data.length = 32 := by decide
  rw [hl]
  have ht : ((entropyThreshold 32 : ℚ) : ℝ) = 91/25 := by
    norm_num [entropyThreshold]
  rw [ht]
  exact entropy_md5_lt.le

/-- Entropy of `"ab"` is exactly one bit per character. -/
theorem shannonEntropy_ab : shannonEntropy "ab" = 1 := by
  have hd : ("ab" : String).data.dedup = ['a', 'b'] := by decide
  have hca : ("ab" : String).data.count 'a' = 1 := by decide
  have hcb : ("ab" : String).data.count 'b' = 1 := by decide
  have hl : ("ab" : String).data.length = 2 := by decide
  have he : ("ab" : String).data.isEmpty = false := by decide
  rw [shannonEntropy, he]
  simp only [Bool.false_eq_true, if_false, hd, hl, hca, hcb, List.map_cons, List.map_nil]
  have hlog : Real.logb 2 ((1 : ℝ)/2) = -1 := by
    rw [show ((1:ℝ)/2) = (2:ℝ)⁻¹ by norm_num, Real.logb_inv,
      Real.logb_self_eq_one one_lt_two]
  norm_num [hlog]

/-- Entropy bonus does not fire on `"ab"` (1 < 3.04). -/
theorem entropyStep_ab : entropyStep "ab" = (0, []) := by
  rw [entropyStep, if_neg]
  push_neg
  have hl : ("ab" : String).data.length = 2 := by decide
  rw [hl]
  have ht : ((entropyThreshold 2 : ℚ) : ℝ) = 76/25 := by
    norm_num [entropyThreshold]
  rw [ht, shannonEntropy_ab]
  norm_num

/-! ## Scoring the MD5 example -/

theorem regexStep_md5 : regexStep md5In md5Pat = (0, []) := rfl

theorem prefixStep_md5 : prefixStep md5In md5Pat = (0, []) := rfl

theorem lengthStep_md5 : lengthStep md5In md5Pat = (2/5, ["Exact length match (32)"]) := rfl

theorem charsetStep_md5 : charsetStep md5In md5Pat = (1/5, ["Charset match (hex)"]) := by
  have h1 : getCharset md5In = "hex" := by decide
  have h2 : strTruthy (safeBase64Decode md5In) = true := by decide
  have h3 : getCharset ((safeBase64Decode md5In).getD "") = "unknown" := by decide
  have h4 : strTruthy (safeHexDecode md5In) = true := by decide
  have h5 : getCharset ((safeHexDecode md5In).getD "") = "unknown" := by decide
  simp [charsetStep, md5Pat, h1, h2, h3, h4, h5]

theorem suffixStep_md5 : suffixStep md5In md5Pat = (0, []) := rfl

theorem decodeStep_md5 : decodeStep md5In md5Pat = (1/10, ["Decodable content"]) := by
  have h2 : strTruthy (safeBase64Decode md5In) = true := by decide
  have h3 : getCharset ((safeBase64Decode md5In).getD "") = "unknown" := by decide
  have h4 : strTruthy (safeHexDecode md5In) = true := by decide
  have h5 : getCharset ((safeHexDecode md5In).getD "") = "unknown" := by decide
  simp [decodeStep, md5Pat, h2, h3, h4, h5]

theorem signatureStep_md5 : signatureStep md5In md5Pat = (0, []) := rfl

/-- Scoring the MD5 input against the MD5 descriptor: exact length (+0.40)
plus direct charset match (+0.20) plus decodability (+0.10) — the decoded
charsets are `unknown`, so the +0.15/+0.05 bonuses do not fire, and the
entropy bonus misses its threshold. Total: 0.7. -/
theorem scorePattern_md5 : scorePattern md5In md5Pat =
    (7/10, ["Exact length match (32)", "Charset match (hex)", "Decodable content"]) := by
  rw [scorePattern, entropyStep_md5, regexStep_md5, prefixStep_md5, lengthStep_md5,
    charsetStep_md5, suffixStep_md5, decodeStep_md5, signatureStep_md5]
  norm_num

/-- Scoring `"ab"` against the length-2 descriptor: exact length (+0.40) and
decodability (+0.10). -/
theorem scorePattern_len2_ab : scorePattern "ab" len2Pat =
    (1/2, ["Exact length match (2)", "Decodable content"]) := by
  have h1 : regexStep "ab" len2Pat = (0, []) := rfl
  have h2 : prefixStep "ab" len2Pat = (0, []) := rfl
  have h3 : lengthStep "ab" len2Pat = (2/5, ["Exact length match (2)"]) := rfl
  have h4 : charsetStep "ab" len2Pat = (0, []) := rfl
  have h5 : suffixStep "ab" len2Pat = (0, []) := rfl
  have h7 : decodeStep "ab" len2Pat = (1/10, ["Decodable content"]) := by
    have hb : strTruthy (safeBase64Decode "ab") = true := by decide
    simp [decodeStep, len2Pat, hb]
  have h8 : signatureStep "ab" len2Pat = (0, []) := rfl
  rw [scorePattern, entropyStep_ab, h1, h2, h3, h4, h5, h7, h8]
  norm_num

theorem candidatesOf_md5 :
    candidatesOf md5Cat md5In = [⟨"md5", "MD5", 7/10, Color.yellow,
      ["Exact length match (32)", "Charset match (hex)", "Decodable content"]⟩] := by
  simp only [candidatesOf, md5Cat, List.filterMap_cons, List.filterMap_nil,
    scorePattern_md5]
  norm_num [colorOf, min_def, md5Pat]

theorem detectCandidates_md5 :
    detectCandidates md5Cat md5In = [⟨"md5", "MD5", 7/10, Color.yellow,
      ["Exact length match (32)", "Charset match (hex)", "Decodable content"]⟩] := by
  rw [detectCandidates, if_neg (by decide : ¬md5In.data.isEmpty = true),
    candidatesOf_md5]
  simp [sortByScoreDesc, insertDesc]

theorem analyzeInput_md5_results :
    (analyzeInput md5Cat md5In).results = [⟨"md5", "MD5", 7/10, Color.yellow,
      ["Exact length match (32)", "Charset match (hex)", "Decodable content"]⟩] := by
  rw [analyzeInput, analyzeInputBody,
    if_neg (by decide : ¬md5In.data.isEmpty = true),
    if_neg (by decide : ¬md5In.data.length > 10000)]
  simp [detectCandidates_md5]

theorem detectCandidates_len2_ab :
    detectCandidates len2Cat "ab" = [⟨"len2", "Len2", 1/2, Color.red,
      ["Exact length match (2)", "Decodable content"]⟩] := by
  rw [detectCandidates, if_neg (by decide : ¬("ab" : String).data.isEmpty = true)]
  simp only [candidatesOf, len2Cat, List.filterMap_cons, List.filterMap_nil,
    scorePattern_len2_ab]
  norm_num [colorOf, min_def, len2Pat, sortByScoreDesc, insertDesc]

/-! ## Claim theorems -/

/-- C1 (counterexample): the empty input does raise the validation error
inside `analyzeInput`, but the call does not surface it as a rejection — the
function's own catch-all converts it into an ordinary (degraded) analysis
record, so the validation failure IS downgraded into an analysis record. -/
theorem c1_counterexample :
    analyzeInputBody [] "" = Except.error "Invalid input: must be a non-empty string" ∧
    (analyzeInput [] "").results = [⟨"error", "Analysis Error", 0, Color.red,
      ["analysis failed: Invalid input: must be a non-empty string"]⟩] := by
  constructor
  · rw [analyzeInputBody, if_pos (by decide)]
  · rw [analyzeInput, analyzeInputBody, if_pos (by decide)]
    rfl

/-- C1 (amended): for every empty or over-10,000-character input,
`analyzeInput` raises a validation error internally, but its own catch-all
converts it into a degraded record whose single result has id `"error"` and
whose evidence names the validation failure; the caller receives a normal
analysis record, never a rejection. -/
theorem c1_validation_downgraded (cat : List (String × HashPattern)) (input : String)
    (h : input.data = [] ∨ 10000 < input.data.length) :
    ∃ msg, analyzeInputBody cat input = Except.error msg ∧
      analyzeInput cat input = fallbackRecord input msg ∧
      (analyzeInput cat input).results =
        [⟨"error", "Analysis Error", 0, Color.red, ["analysis failed: " ++ msg]⟩] := by
  have hbody : ∃ msg, analyzeInputBody cat input = Except.error msg := by
    rcases h with he | hl
    · exact ⟨_, by rw [analyzeInputBody, if_pos (by simp [he])]⟩
    · rcases hne : input.data.isEmpty with _ | _
      · exact ⟨_, by rw [analyzeInputBody, if_neg (by simp [hne]), if_pos hl]⟩
      · exact ⟨_, by rw [analyzeInputBody, if_pos hne]⟩
  obtain ⟨msg, hmsg⟩ := hbody
  exact ⟨msg, hmsg, by rw [analyzeInput, hmsg], by rw [analyzeInput, hmsg]; rfl⟩

/-- C1 witness: the amended statement instantiated at the empty input. -/
theorem c1_validation_downgraded_witness :
    (("" : String).data = [] ∨ 10000 < ("" : String).data.length) ∧
    ∃ msg, analyzeInputBody [] "" = Except.error msg ∧
      analyzeInput [] "" = fallbackRecord "" msg ∧
      (analyzeInput [] "").results =
        [⟨"error", "Analysis Error", 0, Color.red, ["analysis failed: " ++ msg]⟩] :=
  ⟨Or.inl rfl, c1_validation_downgraded [] "" (Or.inl rfl)⟩

/-- C2: `analyzeInput` is total for every string input and every catalog — it
either returns the record its body produced, or, when the body raised (the
only raises are the validation errors), the degraded record whose single
result has id `"error"` and an evidence string describing the failure. No
exception ever reaches the caller. -/
theorem c2_analyzeInput_total :
    ∀ (cat : List (String × HashPattern)) (input : String),
    (∃ rec, analyzeInputBody cat input = Except.ok rec ∧ analyzeInput cat input = rec) ∨
    (∃ msg, analyzeInputBody cat input = Except.error msg ∧
      analyzeInput cat input = fallbackRecord input msg ∧
      (analyzeInput cat input).results = [⟨"error", "Analysis Error", 0, Color.red,
        ["analysis failed: " ++ msg]⟩]) := by
  intro cat input
  rcases h : analyzeInputBody cat input with msg | rec
  · right
    exact ⟨msg, rfl, by rw [analyzeInput, h], by rw [analyzeInput, h]; rfl⟩
  · left
    exact ⟨rec, rfl, by rw [analyzeInput, h]⟩

/-- C3 (counterexample): against the MD5 catalog, the 32-hex-character input
yields exactly one MD5 result with score 0.7, so no result has score
strictly greater than 0.8 — the claimed `> 0.8` fails (0.4 length + 0.2
charset + 0.1 decodable = 0.7; the entropy bonus misses its threshold and
even with it the total would only reach 0.8). -/
theorem c3_counterexample :
    (analyzeInput md5Cat md5In).results = [⟨"md5", "MD5", 7/10, Color.yellow,
      ["Exact length match (32)", "Charset match (hex)", "Decodable content"]⟩] ∧
    ¬∃ r ∈ (analyzeInput md5Cat md5In).results, r.id = "md5" ∧ (4/5 : ℚ) < r.score := by
  refine ⟨analyzeInput_md5_results, ?_⟩
  rw [analyzeInput_md5_results]
  rintro ⟨r, hr, _, hgt⟩
  rw [List.mem_singleton] at hr
  subst hr
  norm_num at hgt

/-- C3 (amended): the results include an MD5 detection result whose score is
exactly 0.7 — above the 0.55 yellow threshold (tier yellow) but not above
0.8. -/
theorem c3_md5_score_yellow :
    ∃ r ∈ (analyzeInput md5Cat md5In).results, r.id = "md5" ∧ r.score = 7/10 ∧
      r.color = Color.yellow ∧ (11/20 : ℚ) ≤ r.score ∧ ¬(4/5 : ℚ) < r.score := by
  refine ⟨⟨"md5", "MD5", 7/10, Color.yellow,
    ["Exact length match (32)", "Charset match (hex)", "Decodable content"]⟩,
    ?_, rfl, rfl, rfl, by norm_num, by norm_num⟩
  rw [analyzeInput_md5_results]
  exact List.mem_singleton.mpr rfl

/-- C4: every result emitted by the detector has a clamped score in [0, 1];
it stems from a catalog descriptor whose pre-clamp score reached the 0.25
inclusion threshold, with the stored score `min(raw, 1)`; and its tier is
determined by the score: `> 0.8` green, `0.55–0.8` yellow, `0.25–<0.55`
red. -/
theorem c4_score_bounds_and_tiers (cat : List (String × HashPattern)) (input : String)
    (r : DetectionResult) (hr : r ∈ detectCandidates cat input) :
    ((0 : ℚ) ≤ r.score ∧ r.score ≤ 1) ∧
    (∃ pid p, (pid, p) ∈ cat ∧ r.id = pid ∧ r.name = p.name ∧
      (1/4 : ℚ) ≤ (scorePattern input p).1 ∧
      r.score = min (scorePattern input p).1 1) ∧
    (r.color = Color.green ↔ 4/5 < r.score) ∧
    (r.color = Color.yellow ↔ 11/20 ≤ r.score ∧ r.score ≤ 4/5) ∧
    (r.color = Color.red ↔ 1/4 ≤ r.score ∧ r.score < 11/20) := by
  rw [detectCandidates] at hr
  split at hr
  · simp at hr
  · have hr2 : r ∈ sortByScoreDesc (candidatesOf cat input) :=
      (List.take_sublist 3 _).subset hr
    have hr3 : r ∈ candidatesOf cat input := mem_sortByScoreDesc.mp hr2
    rw [candidatesOf, List.mem_filterMap] at hr3
    obtain ⟨⟨pid, p⟩, hmem, heq⟩ := hr3
    simp only at heq
    split at heq
    case isFalse => exact absurd heq (by simp)
    case isTrue hth =>
      have hre : r = ⟨pid, p.name, min (scorePattern input p).1 1,
          colorOf (scorePattern input p).1, (scorePattern input p).2⟩ :=
        (Option.some_injective _ heq).symm
      set raw := (scorePattern input p).1 with hraw
      have hraw0 : 0 ≤ raw := scorePattern_nonneg input p
      have hscore : r.score = min raw 1 := by rw [hre]
      have hcol : r.color = colorOf raw := by rw [hre]
      refine ⟨⟨?_, ?_⟩, ⟨pid, p, hmem, by rw [hre], by rw [hre], hth, hscore⟩, ?_, ?_, ?_⟩
      · rw [hscore]; exact le_min hraw0 zero_le_one
      · rw [hscore]; exact min_le_right _ _
      · rw [hcol, hscore, colorOf_green_iff]
        constructor
        · intro hg; exact lt_min hg (by norm_num)
        · intro hg; exact lt_of_lt_of_le hg (min_le_left _ _)
      · rw [hcol, hscore, colorOf_yellow_iff]
        constructor
        · rintro ⟨hy1, hy2⟩
          exact ⟨le_min hy1 (by norm_num), min_le_of_left_le hy2⟩
        · rintro ⟨hy1, hy2⟩
          refine ⟨le_trans hy1 (min_le_left _ _), ?_⟩
          rcases min_le_iff.mp hy2 with hcase | hcase
          · exact hcase
          · norm_num at hcase
      · rw [hcol, hscore, colorOf_red_iff]
        constructor
        · intro hrd
          refine ⟨le_min hth (by norm_num), ?_⟩
          rw [min_eq_left (by linarith : raw ≤ 1)]
          exact hrd
        · rintro ⟨_, hrd⟩
          rcases min_lt_iff.mp hrd with hcase | hcase
          · exact hcase
          · norm_num at hcase

/-- C4 witness: the length-2 descriptor's result for `"ab"` is in the
detector output, and the theorem gives its score bounds. -/
theorem c4_score_bounds_and_tiers_witness :
    (⟨"len2", "Len2", 1/2, Color.red, ["Exact length match (2)", "Decodable content"]⟩ :
        DetectionResult) ∈ detectCandidates len2Cat "ab" ∧
    (0 : ℚ) ≤ (1/2 : ℚ) ∧ (1/2 : ℚ) ≤ 1 := by
  have hm : (⟨"len2", "Len2", 1/2, Color.red,
      ["Exact length match (2)", "Decodable content"]⟩ : DetectionResult) ∈
      detectCandidates len2Cat "ab" := by
    rw [detectCandidates_len2_ab]
    exact List.mem_singleton.mpr rfl
  exact ⟨hm, (c4_score_bounds_and_tiers len2Cat "ab" _ hm).1⟩

/-- C5: for every valid input (nonempty, at most 10,000 characters) and
every catalog, the analysis record holds at most 3 results, sorted by score
descending; and either it is the single `unknown` sentinel, or every
equal-score class of the results is an initial segment of the same-score
candidates in catalog iteration order (stability of the sort). -/
theorem c5_results_top3_sorted_stable (cat : List (String × HashPattern))
    (input : String) (h1 : input.data ≠ []) (h2 : input.data.length ≤ 10000) :
    (analyzeInput cat input).results.length ≤ 3 ∧
    (analyzeInput cat input).results.Pairwise (fun a b => b.score ≤ a.score) ∧
    ((analyzeInput cat input).results = [unknownResult] ∨
      ∀ v : ℚ, ∃ t, (analyzeInput cat input).results.filter (fun r => r.score == v) ++ t =
        (candidatesOf cat input).filter (fun r => r.score == v)) := by
  rw [analyzeInput, analyzeInputBody, if_neg (by simp [List.isEmpty_iff, h1]),
    if_neg (by omega)]
  simp only
  rcases hres : (detectCandidates cat input).isEmpty with _ | _
  · rw [if_neg (by simp [hres])]
    rw [detectCandidates, if_neg (by simp [List.isEmpty_iff, h1])] at hres ⊢
    refine ⟨?_, ?_, Or.inr ?_⟩
    · exact le_trans (List.length_take_le 3 _) (by norm_num)
    · exact (pairwise_sortByScoreDesc _).sublist (List.take_sublist 3 _)
    · intro v
      obtain ⟨t, ht⟩ := filter_take_leads (fun r => r.score == v) 3
        (sortByScoreDesc (candidatesOf cat input))
      exact ⟨t, by rw [ht, filter_sortByScoreDesc]⟩
  · rw [if_pos (by simp [hres])]
    exact ⟨by norm_num, List.pairwise_singleton _ _, Or.inl rfl⟩

/-- C5 witness: instantiated at the empty catalog and input `"ab"`. -/
theorem c5_results_top3_sorted_stable_witness :
    ("ab" : String).data ≠ [] ∧ ("ab" : String).data.length ≤ 10000 ∧
    (analyzeInput [] "ab").results.length ≤ 3 :=
  ⟨by decide, by decide, (c5_results_top3_sorted_stable [] "ab" (by decide) (by decide)).1⟩

/-- C6: whenever no descriptor clears the 0.25 inclusion threshold (in
particular for an empty catalog), the record holds exactly the `unknown`
sentinel: id `"unknown"`, name `"Unknown"`, score 0, tier red, evidence
`["no patterns matched"]`. -/
theorem c6_unknown_sentinel (cat : List (String × HashPattern)) (input : String)
    (h1 : input.data ≠ []) (h2 : input.data.length ≤ 10000)
    (h3 : candidatesOf cat input = []) :
    (analyzeInput cat input).results =
      [⟨"unknown", "Unknown", 0, Color.red, ["no patterns matched"]⟩] := by
  rw [analyzeInput, analyzeInputBody, if_neg (by simp [List.isEmpty_iff, h1]),
    if_neg (by omega)]
  simp only
  have hdet : detectCandidates cat input = [] := by
    rw [detectCandidates, if_neg (by simp [List.isEmpty_iff, h1]), h3]
    rfl
  rw [hdet]
  rfl

/-- C6 witness: instantiated at the empty catalog and input `"ab"`. -/
theorem c6_unknown_sentinel_witness :
    ("ab" : String).data ≠ [] ∧ ("ab" : String).data.length ≤ 10000 ∧
    candidatesOf [] "ab" = [] ∧
    (analyzeInput [] "ab").results =
      [⟨"unknown", "Unknown", 0, Color.red, ["no patterns matched"]⟩] :=
  ⟨by decide, by decide, rfl, c6_unknown_sentinel [] "ab" (by decide) (by decide) rfl⟩

/-- C7: the classifier tests hex first, then base64, then ascii, returning
`unknown` otherwise; consequently every nonempty string over `[0-9a-fA-F]`
classifies as hex (never base64), and `classify("deadbeef") = hex`. -/
theorem c7_charset_priority :
    (∀ s : String, isHex s = true → getCharset s = "hex") ∧
    (∀ s : String, isHex s = false → isBase64 s = true → getCharset s = "base64") ∧
    (∀ s : String, isHex s = false → isBase64 s = false → isAscii s = true →
      getCharset s = "ascii") ∧
    (∀ s : String, isHex s = false → isBase64 s = false → isAscii s = false →
      getCharset s = "unknown") ∧
    (∀ s : String, s.data ≠ [] → (∀ c ∈ s.data, isHexChar c = true) →
      getCharset s = "hex" ∧ getCharset s ≠ "base64") ∧
    getCharset "deadbeef" = "hex" := by
  refine ⟨?_, ?_, ?_, ?_, ?_, by decide⟩
  · intro s h; simp [getCharset, h]
  · intro s h1 h2; simp [getCharset, h1, h2]
  · intro s h1 h2 h3; simp [getCharset, h1, h2, h3]
  · intro s h1 h2 h3; simp [getCharset, h1, h2, h3]
  · intro s hne hall
    have hhex : isHex s = true := by
      simp [isHex, List.isEmpty_iff, hne, List.all_eq_true]
      exact hall
    constructor
    · simp [getCharset, hhex]
    · simp [getCharset, hhex]

/-- C7 witness: the hex-priority branch instantiated at `"deadbeef"`. -/
theorem c7_charset_priority_witness :
    isHex "deadbeef" = true ∧ getCharset "deadbeef" = "hex" :=
  ⟨by decide, c7_charset_priority.1 "deadbeef" (by decide)⟩

/-- C8: the entropy function is total and nonnegative on every string, and
`entropy("") = 0`, `entropy("aaaa") = 0`, `entropy("ab") = 1` exactly, as
computed by the `-Σ pᵢ·log2 pᵢ` histogram formula (`shannonEntropy`). -/
theorem c8_entropy_total_and_values :
    (∀ s : String, 0 ≤ shannonEntropy s) ∧ shannonEntropy "" = 0 ∧
    shannonEntropy "aaaa" = 0 ∧ shannonEntropy "ab" = 1 := by
  refine ⟨shannonEntropy_nonneg, by simp [shannonEntropy], ?_, shannonEntropy_ab⟩
  have hd : ("aaaa" : String).data.dedup = ['a'] := by decide
  have hc : ("aaaa" : String).data.count 'a' = 4 := by decide
  have hl : ("aaaa" : String).data.length = 4 := by decide
  have he : ("aaaa" : String).data.isEmpty = false := by decide
  rw [shannonEntropy, he]
  simp only [Bool.false_eq_true, if_false, hd, hl, hc, List.map_cons, List.map_nil]
  norm_num

/-- C9 (counterexample): `"123"` contains no ASCII letters, yet the `rot13`
key is present in the decoding mapping (the probe maps non-letters to
themselves, producing a truthy string, and the aggregator stores every
truthy probe result). -/
theorem c9_counterexample :
    (∀ c ∈ ("123" : String).data, isLetterCh c = false) ∧
    (analyzeInput [] "123").decoding.rot13 = some "123" := by
  constructor
  · decide
  · decide

/-- C9 (amended): for every valid input — with or without letters — the
`rot13` key is present and holds the letter-rotated copy of the input; the
key is omitted only when the probe's output is empty, which cannot happen
for a nonempty input. -/
theorem c9_rot13_always_present (cat : List (String × HashPattern)) (input : String)
    (h1 : input.data ≠ []) (h2 : input.data.length ≤ 10000) :
    (analyzeInput cat input).decoding.rot13 =
      some (String.mk (input.data.map rot13Char)) := by
  rw [analyzeInput, analyzeInputBody, if_neg (by simp [List.isEmpty_iff, h1]),
    if_neg (by omega)]
  simp only [mkDecoding, decodeROT13, Option.filter]
  rw [if_pos]
  simp [List.isEmpty_iff, h1]

/-- C9 witness: the amended statement instantiated at the letterless valid
input `"123"`. -/
theorem c9_rot13_always_present_witness :
    ("123" : String).data ≠ [] ∧ ("123" : String).data.length ≤ 10000 ∧
    (analyzeInput [] "123").decoding.rot13 =
      some (String.mk (("123" : String).data.map rot13Char)) :=
  ⟨by decide, by decide, c9_rot13_always_present [] "123" (by decide) (by decide)⟩

/-- C10: the classifier never produces `"alphanum"` — its range is exactly
{hex, base64, ascii, unknown} — and the charset-variation branch of step 4
is dead: the step computes the same score and evidence as the variant with
the branch removed, for every input and descriptor, so the +0.10 variation
bonus never fires. -/
theorem c10_variation_bonus_dead :
    (∀ s : String, getCharset s = "hex" ∨ getCharset s = "base64" ∨
      getCharset s = "ascii" ∨ getCharset s = "unknown") ∧
    (∀ (s : String) (p : HashPattern), charsetStep s p = charsetStepNoVariation s p) := by
  have hrange : ∀ s : String, getCharset s = "hex" ∨ getCharset s = "base64" ∨
      getCharset s = "ascii" ∨ getCharset s = "unknown" := by
    intro s
    rw [getCharset]
    split
    · tauto
    · split
      · tauto
      · split <;> tauto
  refine ⟨hrange, ?_⟩
  intro s p
  rw [charsetStep, charsetStepNoVariation]
  rcases p.charset with _ | tag
  · rfl
  · simp only
    split
    · rfl
    · have hvar : (!(tag == getCharset s ||
          strTruthy (safeBase64Decode s) &&
            (tag == getCharset ((safeBase64Decode s).getD "")) ||
          strTruthy (safeHexDecode s) &&
            (tag == getCharset ((safeHexDecode s).getD ""))) &&
          tag == "hex" &&
          (getCharset s == "hex" || getCharset s == "alphanum")) = false := by
        by_cases ht : tag = "hex"
        · subst ht
          rcases hrange s with hcs | hcs | hcs | hcs <;> rw [hcs] <;> simp
        · simp [ht]
      rw [hvar]
      simp

end HashAnalyzer
